import Mathlib

/-!
Verification of the `TFHMM` Gaussian-mixture EM engine from `src/HMM.ipynb`
(cell 12).  Tensors are embedded as functions over `Fin` index types and
float arithmetic as exact real arithmetic: a `[k, d]` tensor becomes
`Fin k → Fin d → ℝ`, observations `X` of shape `[n, d]` become
`Fin n → Fin d → ℝ`.  The ambient TensorFlow random draws used by
initialization are passed in explicitly, so a fixed random seed corresponds
to fixed draw arguments.
-/

noncomputable section

open Finset

/-- Softmax of a vector: `tf.nn.softmax`, `exp` then divide by the sum. -/
def softmaxV {k : ℕ} (w : Fin k → ℝ) : Fin k → ℝ :=
  fun c => Real.exp (w c) / ∑ u, Real.exp (w u)

/-- Row-wise softmax: `tf.nn.softmax(·, axis=1)`. -/
def softmaxRows {k : ℕ} (T : Fin k → Fin k → ℝ) : Fin k → Fin k → ℝ :=
  fun r => softmaxV (T r)

/-- Parameter state of the `TFHMM` class: component means, diagonal
covariances, transition matrix and start probabilities. -/
structure TFHMM (k d : ℕ) where
  means_ : Fin k → Fin d → ℝ
  covars_ : Fin k → Fin d → ℝ
  transmat_ : Fin k → Fin k → ℝ
  startprob_ : Fin k → ℝ

/-- Parameter initialization at the top of `TFHMM.fit`: means are the normal
draws, covariances are all ones, the transition matrix and start
probabilities are uniform draws normalized by softmax. -/
def TFHMM.initState {k d : ℕ} (drawsMeans : Fin k → Fin d → ℝ)
    (drawsTrans : Fin k → Fin k → ℝ) (drawsStart : Fin k → ℝ) : TFHMM k d :=
  { means_ := drawsMeans
    covars_ := fun _ _ => 1
    transmat_ := softmaxRows drawsTrans
    startprob_ := softmaxV drawsStart }

/-- Errors named by the specification.  The source never raises any of them. -/
inductive HMMError
  | InvalidDimension

/-- Initialization viewed as a fallible step, faithfully to the source: the
source performs no validation of `n_components` or of the dimensionality, so
this always returns `Except.ok`. -/
def TFHMM.initE (k d : ℕ) (drawsMeans : Fin k → Fin d → ℝ)
    (drawsTrans : Fin k → Fin k → ℝ) (drawsStart : Fin k → ℝ) :
    Except HMMError (TFHMM k d) :=
  Except.ok (TFHMM.initState drawsMeans drawsTrans drawsStart)

/-- `TFHMM._compute_log_likelihood`: entry `(c, i)` of the `k × n`
log-likelihood matrix,
`-0.5 * Σ_j (X i j - mean c j)^2 / covar c j - 0.5 * Σ_j log (2π covar c j)`. -/
def TFHMM._compute_log_likelihood {k d n : ℕ} (m : TFHMM k d)
    (X : Fin n → Fin d → ℝ) : Fin k → Fin n → ℝ :=
  fun c i =>
    -(1 / 2) * (∑ j, (X i j - m.means_ c j) ^ 2 / m.covars_ c j)
      - (1 / 2) * (∑ j, Real.log (2 * Real.pi * m.covars_ c j))

/-- The same Gaussian log-likelihood computed from one sample alone. -/
def TFHMM.sampleLogLik {k d : ℕ} (m : TFHMM k d) (x : Fin d → ℝ) (c : Fin k) : ℝ :=
  -(1 / 2) * (∑ j, (x j - m.means_ c j) ^ 2 / m.covars_ c j)
    - (1 / 2) * (∑ j, Real.log (2 * Real.pi * m.covars_ c j))

/-- E-step, unnormalized log responsibilities:
`self._compute_log_likelihood(X) + tf.math.log(self.startprob_[:, tf.newaxis])`. -/
def TFHMM.eStepLogResp {k d n : ℕ} (m : TFHMM k d) (X : Fin n → Fin d → ℝ) :
    Fin k → Fin n → ℝ :=
  fun c i => m._compute_log_likelihood X c i + Real.log (m.startprob_ c)

/-- `tf.reduce_logsumexp(·, axis=0)` of a `k × n` matrix at column `i`. -/
def colLogSumExp {k n : ℕ} (L : Fin k → Fin n → ℝ) (i : Fin n) : ℝ :=
  Real.log (∑ c, Real.exp (L c i))

/-- E-step responsibilities: log responsibilities normalized per column by
log-sum-exp over components, then exponentiated. -/
def TFHMM.eStepResp {k d n : ℕ} (m : TFHMM k d) (X : Fin n → Fin d → ℝ) :
    Fin k → Fin n → ℝ :=
  fun c i => Real.exp (m.eStepLogResp X c i - colLogSumExp (m.eStepLogResp X) i)

/-- M-step denominator `denom = tf.reduce_sum(resp, axis=1)` for component `c`. -/
def mStepDenom {k n : ℕ} (resp : Fin k → Fin n → ℝ) (c : Fin k) : ℝ :=
  ∑ i, resp c i

/-- M-step mean update `numer / denom` with `numer = tf.matmul(resp, X)`. -/
def mStepMeans {k d n : ℕ} (resp : Fin k → Fin n → ℝ) (X : Fin n → Fin d → ℝ) :
    Fin k → Fin d → ℝ :=
  fun c j => (∑ i, resp c i * X i j) / mStepDenom resp c

/-- M-step covariance update
`tf.reduce_sum(resp[:, :, None] * (X - means)^2, axis=1) / denom`,
where `means` is the given (already updated) mean matrix. -/
def mStepCovars {k d n : ℕ} (resp : Fin k → Fin n → ℝ) (X : Fin n → Fin d → ℝ)
    (newMeans : Fin k → Fin d → ℝ) : Fin k → Fin d → ℝ :=
  fun c j => (∑ i, resp c i * (X i j - newMeans c j) ^ 2) / mStepDenom resp c

/-- One iteration of the EM loop in `TFHMM.fit`: E-step responsibilities,
then the mean update, then the covariance update centered at the newly
assigned means.  `transmat_` and `startprob_` are left untouched. -/
def TFHMM.emStep {k d n : ℕ} (m : TFHMM k d) (X : Fin n → Fin d → ℝ) : TFHMM k d :=
  let resp := m.eStepResp X
  let newMeans := mStepMeans resp X
  { m with means_ := newMeans, covars_ := mStepCovars resp X newMeans }

/-- The `for i in range(self.n_iter)` loop of `TFHMM.fit`. -/
def TFHMM.emLoop {k d n : ℕ} (X : Fin n → Fin d → ℝ) : ℕ → TFHMM k d → TFHMM k d
  | 0, m => m
  | t + 1, m => TFHMM.emLoop X t (m.emStep X)

/-- `TFHMM.fit`: initialize the parameters from the (seed-determined) random
draws, then run `n_iter` EM iterations. -/
def TFHMM.fit {k d n : ℕ} (n_iter : ℕ) (drawsMeans : Fin k → Fin d → ℝ)
    (drawsTrans : Fin k → Fin k → ℝ) (drawsStart : Fin k → ℝ)
    (X : Fin n → Fin d → ℝ) : TFHMM k d :=
  TFHMM.emLoop X n_iter (TFHMM.initState drawsMeans drawsTrans drawsStart)

/-- Index of the first maximum of a list of reals, the semantics of
`tf.argmax` along an axis (`0` on the empty list). -/
def argmaxList : List ℝ → ℕ
  | [] => 0
  | x :: xs => if xs.getD (argmaxList xs) x ≤ x then 0 else argmaxList xs + 1

/-- `TFHMM.predict`: compute the `k × n` log-likelihood matrix and take the
argmax over the component axis, independently for each sample column. -/
def TFHMM.predict {k d n : ℕ} (m : TFHMM k d) (X : Fin n → Fin d → ℝ) : List ℕ :=
  (List.finRange n).map fun i =>
    argmaxList ((List.finRange k).map fun c => m._compute_log_likelihood X c i)

/-- Modelled from the spec: the diagonal-Gaussian log-likelihood with every
variance clamped to at least `eps` before it is used (as the divisor and
inside the normalization log), the defensive computation the spec requires. -/
def clampedLogLik {k d n : ℕ} (eps : ℝ) (m : TFHMM k d)
    (X : Fin n → Fin d → ℝ) : Fin k → Fin n → ℝ :=
  fun c i =>
    -(1 / 2) * (∑ j, (X i j - m.means_ c j) ^ 2 / max eps (m.covars_ c j))
      - (1 / 2) * (∑ j, Real.log (2 * Real.pi * max eps (m.covars_ c j)))

/-- Modelled from the spec: an M-step whose per-component denominator is
clamped below by `eps` before the divisions. -/
def TFHMM.emStepClamp {k d n : ℕ} (eps : ℝ) (m : TFHMM k d)
    (X : Fin n → Fin d → ℝ) : TFHMM k d :=
  let resp := m.eStepResp X
  let newMeans := fun c j => (∑ i, resp c i * X i j) / max eps (mStepDenom resp c)
  { m with means_ := newMeans
           covars_ := fun c j =>
             (∑ i, resp c i * (X i j - newMeans c j) ^ 2) / max eps (mStepDenom resp c) }

/-- Modelled from the spec: an M-step that skips the update of any component
whose total responsibility mass is zero, keeping its previous parameters. -/
def TFHMM.emStepSkip {k d n : ℕ} (m : TFHMM k d)
    (X : Fin n → Fin d → ℝ) : TFHMM k d :=
  let resp := m.eStepResp X
  let newMeans := fun c j =>
    if mStepDenom resp c = 0 then m.means_ c j else mStepMeans resp X c j
  { m with means_ := newMeans
           covars_ := fun c j =>
             if mStepDenom resp c = 0 then m.covars_ c j
             else (∑ i, resp c i * (X i j - newMeans c j) ^ 2) / mStepDenom resp c }

/-- Density of the one-dimensional Gaussian with mean `mu` and variance `v`. -/
def gaussianDensity (mu v x : ℝ) : ℝ :=
  (Real.sqrt (2 * Real.pi * v))⁻¹ * Real.exp (-((x - mu) ^ 2) / (2 * v))

/-- Witness fixture: a one-component, one-dimensional state. -/
def mW11 : TFHMM 1 1 := TFHMM.initState (fun _ _ => 0) (fun _ _ => 0) (fun _ => 0)

/-- Witness fixture: one observation in one dimension, value `0`. -/
def XW11 : Fin 1 → Fin 1 → ℝ := fun _ _ => 0

/-- Witness fixture: two observations, all zero. -/
def XW2a : Fin 2 → Fin 1 → ℝ := fun _ _ => 0

/-- Witness fixture: two observations agreeing with `XW2a` at index `0` only. -/
def XW2b : Fin 2 → Fin 1 → ℝ := fun i _ => if i.val = 0 then 0 else 5

/-- Witness fixture: start-probability draws for a one-component model. -/
def dSW : Fin 1 → ℝ := fun _ => 0

/-- Counterexample fixture: a state whose single component has variance `0`. -/
def mZeroVar : TFHMM 1 1 :=
  { means_ := fun _ _ => 0
    covars_ := fun _ _ => 0
    transmat_ := fun _ _ => 0
    startprob_ := fun _ => 1 }

/-- Counterexample fixture: one observation in one dimension, value `1`. -/
def XOne : Fin 1 → Fin 1 → ℝ := fun _ _ => 1

/-- Counterexample fixture: two well-separated components (means `0` and
`11`, unit variances, uniform start probabilities). -/
def mFar : TFHMM 2 1 :=
  { means_ := fun c _ => if c.val = 0 then 0 else 11
    covars_ := fun _ _ => 1
    transmat_ := fun _ _ => 0
    startprob_ := fun _ => 1 / 2 }

/-- Counterexample fixture: a one-component state with mean `5`. -/
def mFive : TFHMM 1 1 :=
  { means_ := fun _ _ => 5
    covars_ := fun _ _ => 1
    transmat_ := fun _ _ => 0
    startprob_ := fun _ => 1 }

/-- Counterexample fixture: an empty observation set. -/
def XEmpty : Fin 0 → Fin 1 → ℝ := fun _ _ => 0

/-- Witness fixture: like `mFar` but with a skewed prior. -/
def mPrior1 : TFHMM 2 1 :=
  { means_ := fun c _ => if c.val = 0 then 0 else 11
    covars_ := fun _ _ => 1
    transmat_ := fun _ _ => 1 / 2
    startprob_ := fun c => if c.val = 0 then 9 / 10 else 1 / 10 }

/-- Witness fixture: same means and covariances as `mPrior1`, different
start probabilities and transition matrix. -/
def mPrior2 : TFHMM 2 1 :=
  { means_ := fun c _ => if c.val = 0 then 0 else 11
    covars_ := fun _ _ => 1
    transmat_ := fun _ _ => 1 / 4
    startprob_ := fun c => if c.val = 0 then 1 / 10 else 9 / 10 }

/- ------------------------------------------------------------------ -/
/- Theorems                                                           -/
/- ------------------------------------------------------------------ -/

/-- A sum of exponentials over a nonempty index type is positive. -/
lemma sum_exp_pos {k : ℕ} (hk : 0 < k) (f : Fin k → ℝ) :
    0 < ∑ c, Real.exp (f c) :=
  Finset.sum_pos (fun c _ => Real.exp_pos _)
    (Finset.univ_nonempty_iff.mpr (Fin.pos_iff_nonempty.mp hk))

/-- The EM loop never writes `startprob_`. -/
lemma emLoop_startprob {k d n : ℕ} (X : Fin n → Fin d → ℝ) :
    ∀ (t : ℕ) (m : TFHMM k d), (TFHMM.emLoop X t m).startprob_ = m.startprob_ := by
  intro t
  induction t with
  | zero => intro m; rfl
  | succ s ih => intro m; exact ih (m.emStep X)

/-- The EM loop never writes `transmat_`. -/
lemma emLoop_transmat {k d n : ℕ} (X : Fin n → Fin d → ℝ) :
    ∀ (t : ℕ) (m : TFHMM k d), (TFHMM.emLoop X t m).transmat_ = m.transmat_ := by
  intro t
  induction t with
  | zero => intro m; rfl
  | succ s ih => intro m; exact ih (m.emStep X)

/-- C5: `startprob_` and `transmat_` are assigned exactly once, as softmax
normalizations of the initialization draws, and are never reassigned inside
the EM loop: after `fit` they equal their post-initialization values
regardless of the iteration count and of the observations. -/
theorem C5_start_trans_assigned_once {k d n : ℕ} (n_iter : ℕ)
    (drawsMeans : Fin k → Fin d → ℝ) (drawsTrans : Fin k → Fin k → ℝ)
    (drawsStart : Fin k → ℝ) (X : Fin n → Fin d → ℝ) :
    (TFHMM.fit n_iter drawsMeans drawsTrans drawsStart X).startprob_ =
        softmaxV drawsStart ∧
      (TFHMM.fit n_iter drawsMeans drawsTrans drawsStart X).transmat_ =
        softmaxRows drawsTrans := by
  constructor
  · rw [TFHMM.fit, emLoop_startprob]; rfl
  · rw [TFHMM.fit, emLoop_transmat]; rfl

/-- C2: in every EM iteration the M-step sets each mean coordinate to
`(Σ_i resp[c][i] * x_i) / denom_c` and each variance coordinate to
`(Σ_i resp[c][i] * (x_i - mean_c)^2) / denom_c`, where the `mean_c` used by
the variance update is the newly assigned mean of the same iteration. -/
theorem C2_mstep_mean_then_var {k d n : ℕ} (m : TFHMM k d)
    (X : Fin n → Fin d → ℝ) (c : Fin k) (j : Fin d) :
    (m.emStep X).means_ c j =
        (∑ i, m.eStepResp X c i * X i j) / (∑ i, m.eStepResp X c i) ∧
      (m.emStep X).covars_ c j =
        (∑ i, m.eStepResp X c i * (X i j - (m.emStep X).means_ c j) ^ 2) /
          (∑ i, m.eStepResp X c i) := by
  constructor <;> rfl

/-- Each responsibility equals its exponential numerator over the column sum. -/
lemma eStepResp_eq_div {k d n : ℕ} (hk : 0 < k) (m : TFHMM k d)
    (X : Fin n → Fin d → ℝ) (c : Fin k) (i : Fin n) :
    m.eStepResp X c i =
      Real.exp (m.eStepLogResp X c i) / ∑ u, Real.exp (m.eStepLogResp X u i) := by
  have hS : 0 < ∑ u, Real.exp (m.eStepLogResp X u i) :=
    sum_exp_pos hk fun u => m.eStepLogResp X u i
  rw [TFHMM.eStepResp, colLogSumExp, Real.exp_sub, Real.exp_log hS]

/-- C4: after the E-step's log-sum-exp normalization and exponentiation,
every column of the responsibility matrix lies in `[0, 1]` entrywise and
sums to `1` exactly (over real arithmetic), for every state and every
observation set, provided there is at least one component. -/
theorem C4_resp_column_simplex {k d n : ℕ} (hk : 0 < k) (m : TFHMM k d)
    (X : Fin n → Fin d → ℝ) (i : Fin n) (c : Fin k) :
    (∑ u, m.eStepResp X u i) = 1 ∧
      0 ≤ m.eStepResp X c i ∧ m.eStepResp X c i ≤ 1 := by
  have hS : 0 < ∑ u, Real.exp (m.eStepLogResp X u i) :=
    sum_exp_pos hk fun u => m.eStepLogResp X u i
  refine ⟨?_, ?_, ?_⟩
  · rw [Finset.sum_congr rfl fun u _ => eStepResp_eq_div hk m X u i,
      ← Finset.sum_div]
    exact div_self (ne_of_gt hS)
  · exact (Real.exp_pos _).le
  · rw [eStepResp_eq_div hk m X c i]
    refine div_le_one_of_le ?_ hS.le
    exact Finset.single_le_sum (fun u _ => (Real.exp_pos (m.eStepLogResp X u i)).le)
      (Finset.mem_univ c)

/-- Witness for C4 at a concrete one-component state and one observation. -/
theorem C4_witness :
    0 < 1 ∧
      ((∑ u, mW11.eStepResp XW11 u 0) = 1 ∧
        0 ≤ mW11.eStepResp XW11 0 0 ∧ mW11.eStepResp XW11 0 0 ≤ 1) :=
  ⟨Nat.one_pos, C4_resp_column_simplex Nat.one_pos mW11 XW11 0 0⟩

/-- C9: `fit` is deterministic.  Randomized initialization is modelled by
the explicit draw arguments, which a fixed random seed determines; two runs
of `fit` from the same draws, the same iteration count and the same
observations end in identical means, covariances and start weights. -/
theorem C9_fit_deterministic {k d n : ℕ} (n_iter : ℕ)
    (drawsMeans : Fin k → Fin d → ℝ) (drawsTrans : Fin k → Fin k → ℝ)
    (drawsStart : Fin k → ℝ) (X : Fin n → Fin d → ℝ) (s1 s2 : TFHMM k d)
    (h1 : s1 = TFHMM.fit n_iter drawsMeans drawsTrans drawsStart X)
    (h2 : s2 = TFHMM.fit n_iter drawsMeans drawsTrans drawsStart X) :
    s1.means_ = s2.means_ ∧ s1.covars_ = s2.covars_ ∧
      s1.startprob_ = s2.startprob_ := by
  subst h1; subst h2
  exact ⟨rfl, rfl, rfl⟩

/-- Witness for C9: two runs of `fit` on the same concrete inputs. -/
theorem C9_witness :
    (TFHMM.fit 3 XW11 XW11 dSW XW11).means_ =
        (TFHMM.fit 3 XW11 XW11 dSW XW11).means_ ∧
      (TFHMM.fit 3 XW11 XW11 dSW XW11).covars_ =
        (TFHMM.fit 3 XW11 XW11 dSW XW11).covars_ ∧
      (TFHMM.fit 3 XW11 XW11 dSW XW11).startprob_ =
        (TFHMM.fit 3 XW11 XW11 dSW XW11).startprob_ :=
  C9_fit_deterministic 3 XW11 XW11 dSW XW11 _ _ rfl rfl

/-- C10: `predict` reads only the means and the covariances: two states that
agree on `means_` and `covars_` but differ arbitrarily in `startprob_` and
`transmat_` produce identical label sequences on every observation set (in
particular the per-sample argmax does not include the log start-weight term
the E-step adds). -/
theorem C10_predict_ignores_priors {k d n : ℕ} (m m2 : TFHMM k d)
    (X : Fin n → Fin d → ℝ) (h1 : m.means_ = m2.means_)
    (h2 : m.covars_ = m2.covars_) :
    m.predict X = m2.predict X := by
  unfold TFHMM.predict TFHMM._compute_log_likelihood
  rw [h1, h2]

/-- Witness for C10: `mPrior1` and `mPrior2` share means and covariances but
have different start probabilities, and predict identically. -/
theorem C10_witness :
    mPrior1.means_ = mPrior2.means_ ∧ mPrior1.covars_ = mPrior2.covars_ ∧
      mPrior1.startprob_ ≠ mPrior2.startprob_ ∧
      mPrior1.predict XOne = mPrior2.predict XOne := by
  refine ⟨rfl, rfl, ?_, C10_predict_ignores_priors mPrior1 mPrior2 XOne rfl rfl⟩
  intro h
  have h0 := congrFun h 0
  rw [mPrior1, mPrior2] at h0
  norm_num at h0

/-- C6 counterexample: with `n_components = 0` (hence `< 1`) initialization
does not fail: it never returns an `InvalidDimension` error (the source
performs no validation at all). -/
theorem C6_counterexample :
    ¬ ∃ e, TFHMM.initE 0 1 (fun _ _ => (0 : ℝ)) (fun _ _ => 0) (fun _ => 0) =
      Except.error e := by
  rintro ⟨e, h⟩
  simp [TFHMM.initE] at h

/-- C6 amended: initialization performs no validation and never fails; for
every `n_components` (including `0`) and every dimensionality it returns
`Except.ok` with the initialized state, and no `InvalidDimension` error is
ever produced by the code. -/
theorem C6_amended_init_never_fails (k d : ℕ) (drawsMeans : Fin k → Fin d → ℝ)
    (drawsTrans : Fin k → Fin k → ℝ) (drawsStart : Fin k → ℝ) :
    TFHMM.initE k d drawsMeans drawsTrans drawsStart =
      Except.ok (TFHMM.initState drawsMeans drawsTrans drawsStart) := rfl

/-- Within bounds, `List.getD` does not depend on the default. -/
lemma getD_default_irrel {α : Type} (l : List α) (d1 d2 : α) (t : ℕ)
    (h : t < l.length) : l.getD t d1 = l.getD t d2 := by
  rw [List.getD_eq_getElem l d1 h, List.getD_eq_getElem l d2 h]

/-- The first-argmax index of a nonempty list is within bounds. -/
lemma argmaxList_lt_length : ∀ (l : List ℝ), l ≠ [] → argmaxList l < l.length
  | [], h => absurd rfl h
  | x :: xs, _ => by
    by_cases hc : xs.getD (argmaxList xs) x ≤ x
    · rw [argmaxList, if_pos hc]
      exact Nat.succ_pos _
    · rw [argmaxList, if_neg hc]
      have hxs : xs ≠ [] := by
        intro he
        subst he
        simp at hc
      have hr := argmaxList_lt_length xs hxs
      simpa [List.length_cons] using Nat.succ_lt_succ hr

/-- The entry at the first-argmax index dominates every entry of the list. -/
lemma argmaxList_is_max : ∀ (l : List ℝ) (t : ℕ), t < l.length →
    l.getD t 0 ≤ l.getD (argmaxList l) 0
  | [], t, ht => absurd ht (by simp)
  | x :: xs, t, ht => by
    by_cases hxs : xs = []
    · subst hxs
      have ht0 : t = 0 := by simpa using ht
      subst ht0
      simp [argmaxList]
    · have hr : argmaxList xs < xs.length := argmaxList_lt_length xs hxs
      have hdef : xs.getD (argmaxList xs) x = xs.getD (argmaxList xs) 0 :=
        getD_default_irrel xs x 0 _ hr
      by_cases hc : xs.getD (argmaxList xs) x ≤ x
      · have hax : argmaxList (x :: xs) = 0 := by rw [argmaxList, if_pos hc]
        rw [hax]
        cases t with
        | zero => simp
        | succ s =>
          have hs : s < xs.length := by simpa using ht
          have ih := argmaxList_is_max xs s hs
          rw [List.getD_cons_succ, List.getD_cons_zero]
          calc xs.getD s 0 ≤ xs.getD (argmaxList xs) 0 := ih
            _ = xs.getD (argmaxList xs) x := hdef.symm
            _ ≤ x := hc
      · have hax : argmaxList (x :: xs) = argmaxList xs + 1 := by
          rw [argmaxList, if_neg hc]
        rw [hax]
        push_neg at hc
        cases t with
        | zero =>
          rw [List.getD_cons_zero, List.getD_cons_succ, ← hdef]
          exact hc.le
        | succ s =>
          have hs : s < xs.length := by simpa using ht
          rw [List.getD_cons_succ, List.getD_cons_succ]
          exact argmaxList_is_max xs s hs

/-- `getD` at index `i` of a function mapped over `finRange` is the value at `i`. -/
lemma getD_map_finRange {α : Type} {n : ℕ} (f : Fin n → α) (i : Fin n) (d0 : α) :
    ((List.finRange n).map f).getD i.val d0 = f i := by
  have hlt : i.val < ((List.finRange n).map f).length := by
    simpa using i.isLt
  rw [List.getD_eq_getElem _ _ hlt, List.getElem_map]
  congr 1
  have hfin : i.val < (List.finRange n).length := by simpa using i.isLt
  have := List.get_finRange (n := n) (i := i.val) hfin
  simpa [List.get_eq_getElem] using this

/-- C1: `predict` returns a label list of length `n`; the label of sample `i`
is the first argmax, over component indices, of the per-component Gaussian
log-likelihood computed from sample `i` alone (it attains the maximum), and
the label of sample `i` depends only on sample `i`: any other observation
set agreeing at `i` yields the same label there. -/
theorem C1_predict_per_sample_argmax {k d n : ℕ} (hk : 0 < k) (m : TFHMM k d)
    (X X2 : Fin n → Fin d → ℝ) (i : Fin n) (h : X i = X2 i) :
    (m.predict X).length = n ∧
      (m.predict X).getD i.val 0 =
        argmaxList ((List.finRange k).map fun c => m.sampleLogLik (X i) c) ∧
      (∃ cmax : Fin k, (m.predict X).getD i.val 0 = cmax.val ∧
        ∀ c : Fin k, m.sampleLogLik (X i) c ≤ m.sampleLogLik (X i) cmax) ∧
      (m.predict X).getD i.val 0 = (m.predict X2).getD i.val 0 := by
  have hget : ∀ Y : Fin n → Fin d → ℝ, (m.predict Y).getD i.val 0 =
      argmaxList ((List.finRange k).map fun c => m.sampleLogLik (Y i) c) := by
    intro Y
    rw [TFHMM.predict, getD_map_finRange]
    rfl
  refine ⟨by simp [TFHMM.predict], hget X, ?_, by rw [hget X, hget X2, h]⟩
  have hlne : ((List.finRange k).map fun c => m.sampleLogLik (X i) c) ≠ [] := by
    simp only [ne_eq, List.map_eq_nil_iff, List.finRange_eq_nil]
    omega
  have hlen : ((List.finRange k).map fun c => m.sampleLogLik (X i) c).length = k := by
    simp
  have hlt : argmaxList ((List.finRange k).map fun c => m.sampleLogLik (X i) c) < k := by
    have hb := argmaxList_lt_length _ hlne
    rwa [hlen] at hb
  refine ⟨⟨argmaxList ((List.finRange k).map fun c => m.sampleLogLik (X i) c), hlt⟩,
    hget X, ?_⟩
  intro c
  have h1 := argmaxList_is_max ((List.finRange k).map fun c => m.sampleLogLik (X i) c)
    c.val (by rw [hlen]; exact c.isLt)
  have h2 : ((List.finRange k).map fun c => m.sampleLogLik (X i) c).getD c.val 0 =
      m.sampleLogLik (X i) c := getD_map_finRange _ c 0
  have h3 : ((List.finRange k).map fun c => m.sampleLogLik (X i) c).getD
        (argmaxList ((List.finRange k).map fun c => m.sampleLogLik (X i) c)) 0 =
      m.sampleLogLik (X i)
        ⟨argmaxList ((List.finRange k).map fun c => m.sampleLogLik (X i) c), hlt⟩ :=
    getD_map_finRange _ ⟨_, hlt⟩ 0
  rw [← h2, ← h3]
  exact h1

/-- Witness for C1 at a concrete one-component state and two observation
sets agreeing at sample `0` only. -/
theorem C1_witness :
    XW2a 0 = XW2b 0 ∧
      ((mW11.predict XW2a).length = 2 ∧
        (mW11.predict XW2a).getD 0 0 =
          argmaxList ((List.finRange 1).map fun c => mW11.sampleLogLik (XW2a 0) c) ∧
        (∃ cmax : Fin 1, (mW11.predict XW2a).getD 0 0 = cmax.val ∧
          ∀ c : Fin 1, mW11.sampleLogLik (XW2a 0) c ≤ mW11.sampleLogLik (XW2a 0) cmax) ∧
        (mW11.predict XW2a).getD 0 0 = (mW11.predict XW2b).getD 0 0) := by
  have h : XW2a 0 = XW2b 0 := by
    funext j
    simp [XW2a, XW2b]
  exact ⟨h, C1_predict_per_sample_argmax Nat.one_pos mW11 XW2a XW2b 0 h⟩

/-- C3: every entry `(c, i)` of the dense `k × n` log-likelihood matrix is
the stated diagonal-covariance expression
`-0.5 * Σ_j (x_i_j - mean_c_j)^2 / var_c_j - 0.5 * Σ_j log (2π var_c_j)`,
and for strictly positive variances it is the logarithm of the product of
the per-dimension Gaussian densities of sample `i` under component `c`. -/
theorem C3_loglik_is_gaussian {k d n : ℕ} (m : TFHMM k d)
    (X : Fin n → Fin d → ℝ) (c : Fin k) (i : Fin n)
    (hv : ∀ j, 0 < m.covars_ c j) :
    m._compute_log_likelihood X c i =
        -(1 / 2) * (∑ j, (X i j - m.means_ c j) ^ 2 / m.covars_ c j)
          - (1 / 2) * (∑ j, Real.log (2 * Real.pi * m.covars_ c j)) ∧
      m._compute_log_likelihood X c i =
        Real.log (∏ j, gaussianDensity (m.means_ c j) (m.covars_ c j) (X i j)) := by
  refine ⟨rfl, ?_⟩
  have h2pi : ∀ j : Fin d, 0 < 2 * Real.pi * m.covars_ c j := by
    intro j
    have hpi := Real.pi_pos
    have := hv j
    positivity
  have hsq : ∀ j : Fin d, 0 < Real.sqrt (2 * Real.pi * m.covars_ c j) :=
    fun j => Real.sqrt_pos.mpr (h2pi j)
  have hne : ∀ j ∈ (Finset.univ : Finset (Fin d)),
      gaussianDensity (m.means_ c j) (m.covars_ c j) (X i j) ≠ 0 := by
    intro j _
    rw [gaussianDensity]
    exact ne_of_gt (mul_pos (inv_pos.mpr (hsq j)) (Real.exp_pos _))
  have hlog : ∀ j : Fin d,
      Real.log (gaussianDensity (m.means_ c j) (m.covars_ c j) (X i j)) =
        -((1 / 2) * Real.log (2 * Real.pi * m.covars_ c j)) -
          (1 / 2) * ((X i j - m.means_ c j) ^ 2 / m.covars_ c j) := by
    intro j
    rw [gaussianDensity,
      Real.log_mul (inv_ne_zero (ne_of_gt (hsq j))) (Real.exp_ne_zero _),
      Real.log_inv, Real.log_exp, Real.log_sqrt (h2pi j).le]
    rw [neg_div, div_eq_mul_inv ((X i j - m.means_ c j) ^ 2),
      mul_inv_rev 2 (m.covars_ c j)]
    ring
  rw [Real.log_prod _ _ hne, Finset.sum_congr rfl fun j _ => hlog j,
    Finset.sum_sub_distrib, Finset.sum_neg_distrib, ← Finset.mul_sum,
    ← Finset.mul_sum, TFHMM._compute_log_likelihood]
  ring

/-- Witness for C3 at a concrete state with unit variance. -/
theorem C3_witness :
    (0 : ℝ) < mW11.covars_ 0 0 ∧
      mW11._compute_log_likelihood XW11 0 0 =
        Real.log (∏ j, gaussianDensity (mW11.means_ 0 j) (mW11.covars_ 0 j) (XW11 0 j)) :=
  ⟨zero_lt_one, (C3_loglik_is_gaussian mW11 XW11 0 0 fun _ => zero_lt_one).2⟩

/-- C7 counterexample: at a state whose variance is `0`, the code's
log-likelihood differs from the epsilon-clamped computation the claim
describes, so the code does not clamp variances before dividing. -/
theorem C7_counterexample :
    mZeroVar._compute_log_likelihood XOne 0 0 ≠
      clampedLogLik (1 / 1000000) mZeroVar XOne 0 0 := by
  have hL : mZeroVar._compute_log_likelihood XOne 0 0 = 0 := by
    simp [TFHMM._compute_log_likelihood, mZeroVar, XOne]
  have hmax : max (1 / 1000000 : ℝ) 0 = 1 / 1000000 := max_eq_left (by norm_num)
  have hpos : (0 : ℝ) < 2 * Real.pi * (1 / 1000000) := by positivity
  have hexp : Real.exp (-1000000) < 2 * Real.pi * (1 / 1000000) := by
    have h1 : (1000000 : ℝ) + 1 ≤ Real.exp 1000000 := Real.add_one_le_exp 1000000
    have h2 : (Real.exp 1000000)⁻¹ ≤ ((1000000 : ℝ) + 1)⁻¹ :=
      inv_le_inv_of_le (by norm_num) h1
    have h3 := Real.pi_gt_three
    rw [Real.exp_neg]
    calc (Real.exp 1000000)⁻¹ ≤ ((1000000 : ℝ) + 1)⁻¹ := h2
      _ < 2 * Real.pi * (1 / 1000000) := by nlinarith
  have hlog : (-1000000 : ℝ) < Real.log (2 * Real.pi * (1 / 1000000)) :=
    (Real.lt_log_iff_exp_lt hpos).mpr hexp
  have hR : clampedLogLik (1 / 1000000) mZeroVar XOne 0 0 < 0 := by
    have hval : clampedLogLik (1 / 1000000) mZeroVar XOne 0 0 =
        -(1 / 2) * ((1 - 0) ^ 2 / (1 / 1000000)) -
          (1 / 2) * Real.log (2 * Real.pi * (1 / 1000000)) := by
      simp only [clampedLogLik, Fin.sum_univ_one]
      rw [show mZeroVar.covars_ 0 0 = 0 from rfl, hmax,
        show XOne 0 0 = (1 : ℝ) from rfl, show mZeroVar.means_ 0 0 = (0 : ℝ) from rfl]
    rw [hval]
    nlinarith [hlog]
  rw [hL]
  intro hcontra
  rw [← hcontra] at hR
  exact lt_irrefl 0 hR

/-- C7 amended: the code performs no clamping at all — for every state with
nonnegative variances its log-likelihood computation coincides with the
clamped computation at `eps = 0` (the raw variance is the divisor), and at a
zero-variance state it differs from the `eps = 1e-6` clamped computation. -/
theorem C7_amended_unclamped {k d n : ℕ} (m : TFHMM k d) (X : Fin n → Fin d → ℝ)
    (h : ∀ c j, 0 ≤ m.covars_ c j) :
    m._compute_log_likelihood X = clampedLogLik 0 m X := by
  have hm : ∀ (c : Fin k) (j : Fin d), max (0 : ℝ) (m.covars_ c j) = m.covars_ c j :=
    fun c j => max_eq_right (h c j)
  funext c i
  simp only [TFHMM._compute_log_likelihood, clampedLogLik, hm]

/-- Witness for C7's amended statement at a concrete unit-variance state. -/
theorem C7_witness :
    (0 : ℝ) ≤ mW11.covars_ 0 0 ∧
      mW11._compute_log_likelihood XW11 = clampedLogLik 0 mW11 XW11 :=
  ⟨zero_le_one, C7_amended_unclamped mW11 XW11 fun _ _ => zero_le_one⟩

/-- C8 counterexample: the M-step guards nothing.  At a state whose second
component carries responsibility mass below `1e-6` the code's mean update
differs from the denominator-clamped update, and with zero samples (a zero
denominator) it differs from the skip-update variant, so neither guard the
claim describes is present. -/
theorem C8_counterexample :
    (mFar.emStep XOne).means_ 1 0 ≠
        (TFHMM.emStepClamp (1 / 1000000) mFar XOne).means_ 1 0 ∧
      (mFive.emStep XEmpty).means_ 0 0 ≠
        (TFHMM.emStepSkip mFive XEmpty).means_ 0 0 := by
  constructor
  · have hk2 : 0 < 2 := Nat.zero_lt_two
    have hr1 : mFar.eStepResp XOne 1 0 =
        Real.exp (mFar.eStepLogResp XOne 1 0) /
          ∑ u : Fin 2, Real.exp (mFar.eStepLogResp XOne u 0) :=
      eStepResp_eq_div hk2 mFar XOne 1 0
    have hle : Real.exp (mFar.eStepLogResp XOne 0 0) ≤
        ∑ u : Fin 2, Real.exp (mFar.eStepLogResp XOne u 0) := by
      rw [Fin.sum_univ_two]
      exact le_add_of_nonneg_right (Real.exp_pos _).le
    have h3 : mFar.eStepResp XOne 1 0 ≤
        Real.exp (mFar.eStepLogResp XOne 1 0) /
          Real.exp (mFar.eStepLogResp XOne 0 0) := by
      rw [hr1]
      exact div_le_div_of_nonneg_left (Real.exp_pos _).le (Real.exp_pos _) hle
    have h5 : mFar.eStepLogResp XOne 1 0 - mFar.eStepLogResp XOne 0 0 = -(99 / 2) := by
      simp only [TFHMM.eStepLogResp, TFHMM._compute_log_likelihood, Fin.sum_univ_one,
        mFar, XOne]
      norm_num
    have h4 : Real.exp (mFar.eStepLogResp XOne 1 0) /
        Real.exp (mFar.eStepLogResp XOne 0 0) = Real.exp (-(99 / 2)) := by
      rw [← Real.exp_sub, h5]
    have e7 : (8 : ℝ) ≤ Real.exp 7 := by
      have := Real.add_one_le_exp (7 : ℝ)
      linarith
    have e49 : (2097152 : ℝ) ≤ Real.exp 49 := by
      have hp : ((8 : ℝ)) ^ (7 : ℕ) ≤ (Real.exp 7) ^ (7 : ℕ) :=
        pow_le_pow_left (by norm_num) e7 7
      have he : Real.exp 49 = (Real.exp 7) ^ (7 : ℕ) := by
        rw [← Real.exp_nat_mul]
        norm_num
      rw [he]
      calc (2097152 : ℝ) = 8 ^ (7 : ℕ) := by norm_num
        _ ≤ _ := hp
    have h6 : Real.exp (-(99 / 2) : ℝ) ≤ 1 / 2097152 := by
      have ha : Real.exp (-(99 / 2) : ℝ) ≤ Real.exp (-(49 : ℝ)) :=
        Real.exp_le_exp.mpr (by norm_num)
      have hb2 : Real.exp (-(49 : ℝ)) = (Real.exp 49)⁻¹ := Real.exp_neg _
      have hc2 : (Real.exp 49)⁻¹ ≤ (2097152 : ℝ)⁻¹ :=
        inv_le_inv_of_le (by norm_num) e49
      rw [hb2] at ha
      calc Real.exp (-(99 / 2) : ℝ) ≤ (Real.exp 49)⁻¹ := ha
        _ ≤ (2097152 : ℝ)⁻¹ := hc2
        _ = 1 / 2097152 := by norm_num
    have hrb : mFar.eStepResp XOne 1 0 ≤ 1 / 2097152 := by
      calc mFar.eStepResp XOne 1 0
          ≤ Real.exp (mFar.eStepLogResp XOne 1 0) /
            Real.exp (mFar.eStepLogResp XOne 0 0) := h3
        _ = Real.exp (-(99 / 2)) := h4
        _ ≤ 1 / 2097152 := h6
    have hrb6 : mFar.eStepResp XOne 1 0 ≤ 1 / 1000000 := by
      calc mFar.eStepResp XOne 1 0 ≤ 1 / 2097152 := hrb
        _ ≤ 1 / 1000000 := by norm_num
    have hdenom : mStepDenom (mFar.eStepResp XOne) 1 = mFar.eStepResp XOne 1 0 := by
      rw [mStepDenom, Fin.sum_univ_one]
    have hcode : (mFar.emStep XOne).means_ 1 0 = 1 := by
      show mStepMeans (mFar.eStepResp XOne) XOne 1 0 = 1
      rw [mStepMeans, hdenom, Fin.sum_univ_one,
        show XOne 0 0 = (1 : ℝ) from rfl, mul_one]
      exact div_self (ne_of_gt (Real.exp_pos _))
    have hclamp : (TFHMM.emStepClamp (1 / 1000000) mFar XOne).means_ 1 0 < 1 := by
      show (∑ i : Fin 1, mFar.eStepResp XOne 1 i * XOne i 0) /
          max (1 / 1000000) (mStepDenom (mFar.eStepResp XOne) 1) < 1
      rw [hdenom, Fin.sum_univ_one, show XOne 0 0 = (1 : ℝ) from rfl, mul_one,
        max_eq_left hrb6]
      calc mFar.eStepResp XOne 1 0 / (1 / 1000000)
          ≤ (1 / 2097152) / (1 / 1000000) :=
            (div_le_div_right (by norm_num)).mpr hrb
        _ < 1 := by norm_num
    rw [hcode]
    intro hcontra
    rw [← hcontra] at hclamp
    exact lt_irrefl 1 hclamp
  · have hcode0 : (mFive.emStep XEmpty).means_ 0 0 = 0 := by
      show mStepMeans (mFive.eStepResp XEmpty) XEmpty 0 0 = 0
      simp [mStepMeans, mStepDenom]
    have hskip : (TFHMM.emStepSkip mFive XEmpty).means_ 0 0 = 5 := by
      show (if mStepDenom (mFive.eStepResp XEmpty) 0 = 0 then mFive.means_ 0 0
        else mStepMeans (mFive.eStepResp XEmpty) XEmpty 0 0) = 5
      rw [if_pos]
      · rfl
      · rw [mStepDenom]
        simp
    rw [hcode0, hskip]
    norm_num

/-- C8 amended: the code applies no guard — the M-step mean is the raw
quotient by `denom_c` — but in exact arithmetic that denominator is a sum of
exponentials, hence strictly positive whenever there is at least one sample,
so the division is never by zero for nonempty observation sets. -/
theorem C8_amended_denom_unguarded {k d n : ℕ} (hn : 0 < n) (m : TFHMM k d)
    (X : Fin n → Fin d → ℝ) (c : Fin k) (j : Fin d) :
    0 < mStepDenom (m.eStepResp X) c ∧
      (m.emStep X).means_ c j =
        (∑ i, m.eStepResp X c i * X i j) / mStepDenom (m.eStepResp X) c := by
  refine ⟨Finset.sum_pos (fun i _ => Real.exp_pos _) ?_, rfl⟩
  exact Finset.univ_nonempty_iff.mpr (Fin.pos_iff_nonempty.mp hn)

/-- Witness for C8's amended statement at a concrete one-sample input. -/
theorem C8_witness :
    0 < 1 ∧
      (0 < mStepDenom (mW11.eStepResp XW11) 0 ∧
        (mW11.emStep XW11).means_ 0 0 =
          (∑ i, mW11.eStepResp XW11 0 i * XW11 i 0) /
            mStepDenom (mW11.eStepResp XW11) 0) :=
  ⟨Nat.one_pos, C8_amended_denom_unguarded Nat.one_pos mW11 XW11 0 0⟩
